import Mathlib

/-!
Verification of the `pnnp` repository (crates `monochrome` and `pnnp`):
a shallow embedding in Lean 4 of the segmented-manifest (MPD) parser and
streamer, the track-download classifier, the per-track pipeline with its
retry loop, the transcoder's progress emission, and the progress
aggregator, together with theorems settling the frozen claims.

External crates (reqwest, roxmltree, serde_json, base64, url, tokio,
futures) are modelled at their documented interface: XML documents appear
as already-extracted node structures, HTTP fetches and JSON parses as
oracle functions, and `FuturesOrdered` by its contract of yielding results
in push order.
-/

namespace PNNP

/-! ## Machine integers

Rust `u64`/`usize`/`i64` are modelled as `Nat`/`Int` with explicit
reduction modulo `2 ^ 64` where wrap-around matters. -/

def USIZE : Nat := 2 ^ 64

/-- Rust `r as usize` for `r : i64` (two's-complement wrap into `[0, 2^64)`). -/
def usizeOfI64 (r : Int) : Nat := (r % (USIZE : Int)).toNat

/-! ## Numeric attribute parsing

Faithful model of Rust `str::parse::<u64>` / `str::parse::<i64>`
(`.ok()` made explicit as `Option`): an optional single sign, one or more
ASCII digits, and an in-range value. -/

def digitVal? (c : Char) : Option Nat :=
  if '0' ≤ c ∧ c ≤ '9' then some (c.toNat - 48) else none

def digitsValAux : Nat → List Char → Option Nat
  | acc, [] => some acc
  | acc, c :: cs =>
    match digitVal? c with
    | some d => digitsValAux (acc * 10 + d) cs
    | none => none

def digitsVal? : List Char → Option Nat
  | [] => none
  | cs => digitsValAux 0 cs

def parseU64chars (cs : List Char) : Option Nat :=
  let body := match cs with
    | '+' :: rest => rest
    | _ => cs
  match digitsVal? body with
  | some v => if v < USIZE then some v else none
  | none => none

/-- Rust `s.parse::<u64>().ok()`. -/
def parseU64? (s : String) : Option Nat := parseU64chars s.data

def parseI64chars (cs : List Char) : Option Int :=
  match cs with
  | '-' :: rest =>
    match digitsVal? rest with
    | some v => if v ≤ 2 ^ 63 then some (-(v : Int)) else none
    | none => none
  | '+' :: rest =>
    match digitsVal? rest with
    | some v => if v < 2 ^ 63 then some (v : Int) else none
    | none => none
  | _ =>
    match digitsVal? cs with
    | some v => if v < 2 ^ 63 then some (v : Int) else none
    | none => none

/-- Rust `s.parse::<i64>().ok()`. -/
def parseI64? (s : String) : Option Int := parseI64chars s.data

/-! ## String helpers used by the source -/

/-- Worker for `replaceAllChars`: the pattern `p0 :: pt` is nonempty by
construction, so each replacement consumes at least one character; the
fuel argument (instantiated with the text length, which bounds the number
of steps) keeps the recursion structural. -/
def replaceGoChars (p0 : Char) (pt repl : List Char) : Nat → List Char → List Char
  | _, [] => []
  | 0, text => text
  | fuel + 1, c :: rest =>
    if (p0 :: pt).isPrefixOf (c :: rest) then
      repl ++ replaceGoChars p0 pt repl fuel ((c :: rest).drop (pt.length + 1))
    else
      c :: replaceGoChars p0 pt repl fuel rest

/-- Rust `str::replace` on character lists: replace every (non-overlapping,
leftmost-first) occurrence of `pat` by `repl`. -/
def replaceAllChars (pat repl : List Char) (text : List Char) : List Char :=
  match pat with
  | [] => text
  | p0 :: pt => replaceGoChars p0 pt repl text.length text

/-- Rust `String::replace(pat, repl)`. -/
def strReplace (s pat repl : String) : String :=
  ⟨replaceAllChars pat.data repl.data s.data⟩

/-- Substring occurrence at any position of a character list. -/
def containsSubChars (pat : List Char) : List Char → Bool
  | [] => decide (pat = [])
  | c :: rest => pat.isPrefixOf (c :: rest) || containsSubChars pat rest

/-- Rust `str::contains(pat)` (substring occurrence test). -/
def containsSub (s pat : String) : Bool :=
  containsSubChars pat.data s.data

/-- Rust format `{:02}`: zero-pad to width 2. -/
def pad2 (n : Nat) : String :=
  if n < 10 then "0" ++ toString n else toString n

/-! ## Segmented (MPD) manifest model — `monochrome/src/lib.rs`, `download_mpd`

The `roxmltree` crate is external, so an already-parsed document is
modelled as the extracted `SegmentTemplate` node with its attributes as
`Option String` (attribute present or not) and the `S` children of an
optional `SegmentTimeline` child.  The `url` crate's `Url::parse` is
abstracted as a boolean oracle. -/

/-- An `S` element of a `SegmentTimeline`: raw `d` and `r` attributes. -/
structure SNode where
  d : Option String
  r : Option String
  deriving DecidableEq

/-- The `SegmentTemplate` element found in the MPD document. -/
structure SegmentTemplateNode where
  media : Option String
  startNumber : Option String
  timeline : Option (List SNode)
  initTpl : Option String
  deriving DecidableEq

/-- The MPD document, reduced to the (first) `SegmentTemplate` descendant. -/
structure MpdDoc where
  segmentTemplate : Option SegmentTemplateNode
  deriving DecidableEq

/-- `MonochromeManifestError` (`monochrome/src/error.rs`), without the
payloads of the variants that carry foreign errors. -/
inductive ManifestError where
  | XmlParse
  | MissingSegmentTemplate
  | MissingInitializationTemplate
  | SMissingD
  | MissingMedia
  | UrlParse
  | FetchSegment
  | MissingRepresentation
  | InvalidMpd
  | NegativeRepeatUnsupported
  | BadBaseUrl
  | Fs
  deriving DecidableEq

/-- `seg.attribute("startNumber").and_then(|s| s.parse().ok()).unwrap_or(1)`. -/
def startNumberOf (seg : SegmentTemplateNode) : Nat :=
  (seg.startNumber.bind parseU64?).getD 1

/-- `s.attribute("r").and_then(|v| v.parse().ok()).unwrap_or(0)`. -/
def repeatOf (s : SNode) : Int :=
  (s.r.bind parseI64?).getD 0

/-- `s.attribute("d").and_then(|v| v.parse().ok()).ok_or(SMissingD)`. -/
def durationOf (s : SNode) : Except ManifestError Nat :=
  match s.d.bind parseU64? with
  | some d => .ok d
  | none => .error .SMissingD

/-- The timeline expansion loop: for each `S`, require a parseable `d`,
then push `d` once per iteration of `0..=(r as usize)`, i.e.
`(r as usize) + 1` times. -/
def expandTimeline : List SNode → Except ManifestError (List Nat)
  | [] => .ok []
  | s :: rest =>
    match durationOf s with
    | .error e => .error e
    | .ok d =>
      match expandTimeline rest with
      | .error e => .error e
      | .ok tail => .ok (List.replicate (usizeOfI64 (repeatOf s) + 1) d ++ tail)

/-- The data `download_mpd` computes before constructing the lazy stream. -/
structure MpdPlan where
  initUrl : String
  mediaTpl : String
  startNumber : Nat
  segmentCounts : List Nat
  deriving DecidableEq

/-- `download_mpd` up to (and excluding) the lazy `try_stream!` block:
locate the `SegmentTemplate`, require `initialization` and `media`,
default the start number, expand the timeline (or synthesize one
zero-duration placeholder), and parse the initialization URL.
`urlOk` abstracts `Url::parse` of the `url` crate. -/
def downloadMpdPlan (urlOk : String → Bool) (doc : MpdDoc) :
    Except ManifestError MpdPlan :=
  match doc.segmentTemplate with
  | none => .error .MissingSegmentTemplate
  | some seg =>
    match seg.initTpl with
    | none => .error .MissingInitializationTemplate
    | some initTpl =>
      match seg.media with
      | none => .error .MissingMedia
      | some mediaTpl =>
        match (match seg.timeline with
               | some tl => expandTimeline tl
               | none => .ok [0]) with
        | .error e => .error e
        | .ok segmentCounts =>
          if urlOk initTpl then
            .ok ⟨initTpl, mediaTpl, startNumberOf seg, segmentCounts⟩
          else
            .error .UrlParse

/-- The sequence numbers substituted into the media template, in dispatch
order: `start_number + idx as u64` with `u64` wrap-around. -/
def segmentNumbers (plan : MpdPlan) : List Nat :=
  (List.range plan.segmentCounts.length).map
    (fun idx => (plan.startNumber + idx) % USIZE)

/-- `media_tpl.replace("$Number$", &number.to_string())`, per segment. -/
def segmentUrls (plan : MpdPlan) : List String :=
  (segmentNumbers plan).map
    (fun n => strReplace plan.mediaTpl "$Number$" (toString n))

/-! ## The `try_stream!` block of `download_mpd`

A chunk of bytes is a `List Nat`; a `reqwest` fetch error is opaque
(`Nat` tag).  Each spawned segment fetch is a future with a completion
time and a result; `FuturesOrdered` (crate `futures`) yields results in
push order: `next()` awaits the queue head, so the model advances the
clock to the head's completion time before yielding it, whatever the
completion times of the later futures are. -/

abbrev Bytes := List Nat
abbrev FetchErr := Nat

structure SegFuture where
  time : Nat
  result : Except FetchErr Bytes

/-- Draining a `FuturesOrdered` queue: await the head, yield its result. -/
def runOrdered (clock : Nat) : List SegFuture → List (Nat × Except FetchErr Bytes)
  | [] => []
  | f :: rest =>
    let t := max clock f.time
    (t, f.result) :: runOrdered t rest

/-- `while let Some(res) = futs.next().await { yield res.unwrap()? }`:
a fetch error is yielded once (as `try_stream!` forwards it) and the
stream ends. -/
def emitLoop : List (Except FetchErr Bytes) → List (Except FetchErr Bytes)
  | [] => []
  | .ok b :: rest => .ok b :: emitLoop rest
  | .error e :: _ => [.error e]

/-- The futures pushed into the queue, in dispatch order: one per segment
URL, with an arbitrary completion time per dispatch index. -/
def segFutures (plan : MpdPlan) (fetch : String → Except FetchErr Bytes)
    (times : Nat → Nat) : List SegFuture :=
  (segmentUrls plan).enum.map (fun p => ⟨times p.1, fetch p.2⟩)

/-- The item sequence of the stream built by `download_mpd`: the
initialization segment is fetched first (an error there is forwarded and
ends the stream), then the queued segment fetches are drained in order. -/
def mpdStream (plan : MpdPlan) (fetch : String → Except FetchErr Bytes)
    (times : Nat → Nat) : List (Except FetchErr Bytes) :=
  match fetch plan.initUrl with
  | .error e => [.error e]
  | .ok init =>
    .ok init :: emitLoop ((runOrdered 0 (segFutures plan fetch times)).map Prod.snd)

/-! ## `download_track` classification — `monochrome/src/lib.rs` -/

/-- `MonochromeError` (`monochrome/src/error.rs`), foreign payloads elided. -/
inductive MonochromeError where
  | Request
  | Non200 (body : String)
  | Base64Decode
  | UnsupportedManifestMimeType (mime : String)
  | ManifestDecode
  | Manifest (e : ManifestError)
  deriving DecidableEq

/-- How `download_track` continues after classifying the decoded manifest. -/
inductive TrackSource where
  | mpd (manifest : String)
  | direct (url : String)
  deriving DecidableEq

/-- The classification in `download_track`, applied to the already base64-
decoded manifest text: the `<MPD` marker wins, otherwise the first URL of
a parsed `UrlHolder` payload, otherwise `ManifestDecode`.
`parseUrlHolder` abstracts `serde_json::from_str::<UrlHolder>` (external
crate), returning the `urls` field on success. -/
def downloadTrackRoute (parseUrlHolder : String → Option (List String))
    (manifest : String) : Except MonochromeError TrackSource :=
  if containsSub manifest "<MPD" then .ok (.mpd manifest)
  else
    match parseUrlHolder manifest with
    | some (url :: _) => .ok (.direct url)
    | _ => .error .ManifestDecode

/-! ## Track pipeline — `pnnp/src/pipeline.rs` -/

abbrev TrackId := Nat
abbrev AlbumId := Nat

/-- The `TrackResult` fields `Pipeline::begin` reads. -/
structure TrackR where
  id : TrackId
  title : String
  trackNumber : Nat
  volumeNumber : Nat
  deriving DecidableEq

/-- The `Album` fields `Pipeline::begin` reads. -/
structure AlbumR where
  id : AlbumId
  title : String
  releaseYear : Int
  artistName : String
  tracks : List TrackR
  deriving DecidableEq

structure PipeConfig where
  outputDir : String

/-- Filesystem oracle: `tokio::fs::create_dir_all` success and
`tokio::fs::metadata(path).is_ok()` (file existence). -/
structure FsEnv where
  createDirOk : String → Bool
  fileExists : String → Bool

/-- `path_compat`: replace filesystem-unsafe characters by an underscore. -/
def path_compat (s : String) : String :=
  strReplace (strReplace (strReplace (strReplace (strReplace (strReplace
    (strReplace (strReplace (strReplace s "/" "_") "\\" "_") ":" "_")
    "*" "_") "?" "_") "\"" "_") "<" "_") ">" "_") "|" "_"

def albumMultidisc (album : AlbumR) : Bool :=
  album.tracks.any (fun t => decide (1 < t.volumeNumber))

/-- `<output-dir>/<path_compat artist>/<path_compat "[year] title">`. -/
def albumFolder (cfg : PipeConfig) (album : AlbumR) : String :=
  cfg.outputDir ++ "/" ++ path_compat album.artistName ++ "/" ++
    path_compat ("[" ++ toString album.releaseYear ++ "] " ++ album.title)

/-- `"{}.{:02}. {}.opus"` when multidisc, else `"{:02}. {}.opus"`. -/
def trackFileName (multidisc : Bool) (t : TrackR) : String :=
  if multidisc then
    toString t.volumeNumber ++ "." ++ pad2 t.trackNumber ++ ". " ++
      t.title ++ ".opus"
  else
    pad2 t.trackNumber ++ ". " ++ t.title ++ ".opus"

def trackPath (cfg : PipeConfig) (album : AlbumR) (t : TrackR) : String :=
  albumFolder cfg album ++ "/" ++
    path_compat (trackFileName (albumMultidisc album) t)

/-- The per-track loop of `Pipeline::begin`: fail the whole run when the
album folder cannot be created; then, per track, `continue` (spawn
nothing) when the parent directory cannot be created or when the
destination file already exists, and otherwise spawn a task for the
track at its derived path.  (`path.parent()` of `album_folder.join(name)`
is the album folder itself, `name` containing no separator after
`path_compat`.) -/
def spawnedTracks (cfg : PipeConfig) (fs : FsEnv) (album : AlbumR) :
    Except Unit (List (TrackR × String)) :=
  let folder := albumFolder cfg album
  if fs.createDirOk folder = false then .error ()
  else
    .ok <| album.tracks.filterMap fun t =>
      let p := trackPath cfg album t
      if fs.createDirOk folder = false then none
      else if fs.fileExists p then none
      else some (t, p)

/-! ## Retry loop — `tokio_retry::Retry::spawn` with
`ExponentialBackoff::from_millis(1000).map(jitter).take(5)` -/

/-- `ExponentialBackoff::from_millis(base)`: the n-th delay (0-based) is
`base ^ (n+1)` milliseconds. -/
def expBackoffDelays (base n : Nat) : List Nat :=
  (List.range n).map (fun i => base ^ (i + 1))

/-- The pipeline's strategy: exponential backoff from 1000 ms, each delay
mapped through `jitter` (a random factor in `[0,1)`, abstracted as
`jitterF`), truncated to 5 retries. -/
def retryStrategy (jitterF : Nat → Nat → Nat) : List Nat :=
  (expBackoffDelays 1000 5).enum.map (fun p => jitterF p.1 p.2)

/-- `tokio_retry::Retry::spawn`: run the action; on error take the next
delay from the strategy and retry, or give the error back when the
strategy is exhausted.  Returns the number of attempts made (the `k`-th
attempt is `action k`) together with the final outcome. -/
def retryGo {ε α : Type} (action : Nat → Except ε α) :
    Nat → List Nat → Nat × Except ε α
  | k, [] => (k + 1, action k)
  | k, _ :: ds =>
    match action k with
    | .ok a => (k + 1, .ok a)
    | .error _ => retryGo action (k + 1) ds

/-- The outcome of one spawned track task: its whole attempt (manifest
fetch, stream acquisition, transcode) under the retry loop.  The oracle
gives the outcome of the `k`-th attempt. -/
def trackHandleResult {ε : Type} (jitterF : Nat → Nat → Nat)
    (oracle : Nat → Except ε Unit) : Nat × Except ε Unit :=
  retryGo oracle 0 (retryStrategy jitterF)

/-- The handles `Pipeline::begin` returns for the tracks it spawned: each
track's result is a function of its own attempt oracle alone. -/
def beginHandles {ε : Type} (jitterF : Nat → Nat → Nat)
    (oracles : TrackId → Nat → Except ε Unit) (tracks : List TrackR) :
    List (TrackId × (Nat × Except ε Unit)) :=
  tracks.map (fun t => (t.id, trackHandleResult jitterF (oracles t.id)))

/-! ## Progress states and the transcoder — `pnnp/src/pipeline.rs`,
`pnnp/src/ffmpeg.rs` -/

/-- `ProgressState` exactly as declared in `pipeline.rs` (it has no
`Waiting` variant; the aggregator's unset state is `Option.none`). -/
inductive ProgressState where
  | Downloading (bytes : Nat)
  | Transcoding
  | Finished
  deriving DecidableEq

inductive TranscodeError where
  | StdinOpen
  | StdinWrite
  | NonZeroExit (status : Nat)
  deriving DecidableEq

/-- Oracles for the external effects of `Transcoder::run`: stdin handle
availability, per-chunk `write_all` success, `flush`/`shutdown` success,
and the exit outcomes of `ffmpeg` and `opustags` (`.error` is a spawn/IO
failure, `.ok status` an exit with that status, 0 meaning success). -/
structure TranscodeEnv where
  stdinAvailable : Bool
  writeOk : Nat → Bool
  flushOk : Bool
  shutdownOk : Bool
  waitResult : Except Unit Nat
  opustagsResult : Except Unit Nat

/-- The chunk-consumption loop of `Transcoder::run`: write each chunk,
accumulate `downloaded`, emit `Downloading(downloaded)` per chunk; a
stream error is mapped to `StdinOpen` (as the source does), a write
failure to `StdinWrite`. -/
def writeLoop (env : TranscodeEnv) :
    Nat → Nat → List (Except Unit Bytes) →
    List ProgressState × Except TranscodeError Unit
  | _, _, [] => ([], .ok ())
  | downloaded, i, chunk :: rest =>
    match chunk with
    | .error _ => ([], .error .StdinOpen)
    | .ok b =>
      if env.writeOk i then
        (.Downloading (downloaded + b.length) ::
            (writeLoop env (downloaded + b.length) (i + 1) rest).1,
          (writeLoop env (downloaded + b.length) (i + 1) rest).2)
      else ([], .error .StdinWrite)

/-- `Transcoder::run`: emits `Downloading(0)`, consumes the stream, then
`Transcoding` after a successful flush, then (after `ffmpeg` exits with
status 0, and `opustags` succeeds when the track has more than one
artist) `Finished`.  Returns the emitted events and the outcome. -/
def transcoderRun (env : TranscodeEnv) (artistsCount : Nat)
    (chunks : List (Except Unit Bytes)) :
    List ProgressState × Except TranscodeError Unit :=
  let evs0 : List ProgressState := [.Downloading 0]
  if env.stdinAvailable = false then (evs0, .error .StdinOpen)
  else
    match writeLoop env 0 0 chunks with
    | (evs1, .error e) => (evs0 ++ evs1, .error e)
    | (evs1, .ok _) =>
      if env.flushOk = false then (evs0 ++ evs1, .error .StdinWrite)
      else
        let evs2 := evs0 ++ evs1 ++ [ProgressState.Transcoding]
        if env.shutdownOk = false then (evs2, .error .StdinWrite)
        else
          match env.waitResult with
          | .error _ => (evs2, .error .StdinWrite)
          | .ok status =>
            if status ≠ 0 then (evs2, .error (.NonZeroExit status))
            else if 1 < artistsCount then
              match env.opustagsResult with
              | .error _ => (evs2, .error .StdinWrite)
              | .ok st2 =>
                if st2 ≠ 0 then (evs2, .error (.NonZeroExit st2))
                else (evs2 ++ [ProgressState.Finished], .ok ())
            else (evs2 ++ [ProgressState.Finished], .ok ())

/-- The lifecycle stage of an emitted state (`Waiting`, the aggregator's
unset state, would be stage 0). -/
def stageOf : ProgressState → Nat
  | .Downloading _ => 1
  | .Transcoding => 2
  | .Finished => 3

/-- Lifecycle order on emitted states: stages never go backwards, and
byte counts never shrink within the `Downloading` stage. -/
def progLeB : ProgressState → ProgressState → Bool
  | .Downloading m, .Downloading n => decide (m ≤ n)
  | .Downloading _, _ => true
  | .Transcoding, .Downloading _ => false
  | .Transcoding, _ => true
  | .Finished, .Finished => true
  | .Finished, _ => false

/-- Events of a spawned track task, as forwarded to the aggregator:
the concatenation of the per-attempt transcoder emissions (each retry
re-runs `Transcoder::run` from scratch). -/
def beginEvents (trackEvents : TrackR → List ProgressState)
    (cfg : PipeConfig) (fs : FsEnv) (album : AlbumR) :
    List (TrackR × ProgressState) :=
  match spawnedTracks cfg fs album with
  | .error _ => []
  | .ok l => l.flatMap (fun x => (trackEvents x.1).map (fun ev => (x.1, ev)))

/-! ## Progress aggregator — `pnnp/src/bot/progress.rs`

`HashMap` is modelled as an association list with replacing insert and
in-place modify; the claims do not depend on iteration order (rendering
sorts by the stored sort keys). -/

def alistLookup {κ β : Type} [DecidableEq κ] : List (κ × β) → κ → Option β
  | [], _ => none
  | (k', v) :: rest, k => if k' = k then some v else alistLookup rest k

def alistInsert {κ β : Type} [DecidableEq κ] : List (κ × β) → κ → β → List (κ × β)
  | [], k, v => [(k, v)]
  | (k', v') :: rest, k, v =>
    if k' = k then (k, v) :: rest else (k', v') :: alistInsert rest k v

def alistModify {κ β : Type} [DecidableEq κ] (f : β → β) :
    List (κ × β) → κ → List (κ × β)
  | [], _ => []
  | (k', v) :: rest, k =>
    if k' = k then (k', f v) :: rest else (k', v) :: alistModify f rest k

def alistRemove {κ β : Type} [DecidableEq κ] : List (κ × β) → κ → List (κ × β)
  | [], _ => []
  | (k', v) :: rest, k => if k' = k then rest else (k', v) :: alistRemove rest k

structure ProgressUpdate where
  album_id : AlbumId
  track_id : TrackId
  state : ProgressState
  deriving DecidableEq

structure TrackProgress where
  sort : Nat × Nat
  state : Option ProgressState
  last_known_bytes : Nat
  deriving DecidableEq

structure AlbumProgress where
  sort : Nat
  tracks : List (TrackId × TrackProgress)
  title : String
  artist : String
  releaseYear : Int
  deriving DecidableEq

structure AggState where
  albums : List (AlbumId × AlbumProgress)
  count : Nat
  lastEdit : Int
  pendingEdit : Bool
  deriving DecidableEq

inductive ProgressTaskMessage where
  | DiscoverAlbum (id : AlbumId) (album : AlbumR)
  | Progress (u : ProgressUpdate)
  | Done (id : AlbumId)
  deriving DecidableEq

/-- Track map built on `DiscoverAlbum`: every track starts unset
(`state = none`, i.e. waiting) with zero known bytes. -/
def discoverTracks (ts : List TrackR) : List (TrackId × TrackProgress) :=
  ts.map (fun t => (t.id, ⟨(t.volumeNumber, t.trackNumber), none, 0⟩))

/-- One message of the `ProgressTask::run` event loop.  A `Progress`
update whose album or track is unknown hits a `continue` and changes
nothing (not even `pending_edit`). -/
def handleMessage (s : AggState) : ProgressTaskMessage → AggState
  | .DiscoverAlbum id album =>
    { s with
      albums := alistInsert s.albums id
        ⟨s.count, discoverTracks album.tracks, album.title,
          album.artistName, album.releaseYear⟩,
      count := (s.count + 1) % USIZE }
  | .Progress u =>
    match alistLookup s.albums u.album_id with
    | none => s
    | some album =>
      match alistLookup album.tracks u.track_id with
      | none => s
      | some tr =>
        let newBytes := match u.state with
          | .Downloading bytes => bytes
          | _ => tr.last_known_bytes
        let tr' : TrackProgress := ⟨tr.sort, some u.state, newBytes⟩
        let album' := { album with
          tracks := alistModify (fun _ => tr') album.tracks u.track_id }
        { s with
          albums := alistModify (fun _ => album') s.albums u.album_id,
          pendingEdit := true }
  | .Done id =>
    { s with albums := alistRemove s.albums id, pendingEdit := true }

def INTERVAL : Int := 1000

/-- A step of the `tokio::select!` loop: either a channel message is
received, or the render timer fires at time `t`. -/
inductive AggStep where
  | msg (m : ProgressTaskMessage)
  | fire (t : Int)

def applyStep (s : AggState) : AggStep → AggState
  | .msg m => handleMessage s m
  | .fire t => { s with lastEdit := t, pendingEdit := false }

/-- Admissible interleavings of the select loop: the timer branch is
enabled only while `pending_edit` holds, and `sleep(timeout)` with
`timeout = max(0, 1s - last_edit.elapsed())` cannot complete before
`last_edit + 1s`. -/
def wfStepsB : AggState → List AggStep → Bool
  | _, [] => true
  | s, .msg m :: rest => wfStepsB (handleMessage s m) rest
  | s, .fire t :: rest =>
    s.pendingEdit && decide (s.lastEdit + INTERVAL ≤ t) &&
      wfStepsB (applyStep s (.fire t)) rest

/-- The times at which the loop emits an external render (edits the
message), in order. -/
def renderTimes : AggState → List AggStep → List Int
  | _, [] => []
  | s, .msg m :: rest => renderTimes (handleMessage s m) rest
  | s, .fire t :: rest => t :: renderTimes (applyStep s (.fire t)) rest

/-- The state at loop entry: `last_edit = Instant::now() - 1s`,
no pending edit, no albums. -/
def initAgg (now0 : Int) : AggState := ⟨[], 0, now0 - INTERVAL, false⟩

/-- The stored state of one track along a message sequence (the value
after each message), starting from `s0`. -/
def trackStateAt (s : AggState) (aid : AlbumId) (tid : TrackId) :
    Option (Option ProgressState) :=
  (alistLookup s.albums aid).bind
    (fun a => (alistLookup a.tracks tid).map (fun tp => tp.state))

def trackStateTrace (s0 : AggState) (aid : AlbumId) (tid : TrackId)
    (msgs : List ProgressTaskMessage) : List (Option (Option ProgressState)) :=
  (msgs.scanl handleMessage s0).map (fun s => trackStateAt s aid tid)

/-! ## Concrete inputs used by counterexamples and code-bug witnesses -/

/-- A well-formed manifest whose single timeline entry has `d="10"`,
`r="-1"`: the input of claim C1. -/
def c1doc : MpdDoc :=
  ⟨some ⟨some "https://h/m-$Number$.m4s", none,
    some [⟨some "10", some "-1"⟩], some "https://h/init.mp4"⟩⟩

/-- The plan the code computes for `c1doc`. -/
def c1plan : MpdPlan :=
  ⟨"https://h/init.mp4", "https://h/m-$Number$.m4s", 1,
    List.replicate (usizeOfI64 (repeatOf ⟨some "10", some "-1"⟩) + 1) 10 ++ []⟩

/-- A manifest with `startNumber` at the top of the `u64` range and two
segments, exposing the `u64` wrap-around of `start_number + idx`. -/
def c3doc : MpdDoc :=
  ⟨some ⟨some "m-$Number$", some "18446744073709551615",
    some [⟨some "1", some "1"⟩], some "i"⟩⟩

/-- A small well-formed segment template (witness input for C3). -/
def c3wseg : SegmentTemplateNode :=
  ⟨some "m-$Number$", some "5", some [⟨some "2", some "1"⟩], some "i"⟩

def c3wdoc : MpdDoc := ⟨some c3wseg⟩

/-- The plan computed for `c3wdoc`: two segments of duration 2, start 5. -/
def c3wplan : MpdPlan := ⟨"i", "m-$Number$", 5, [2, 2]⟩

/-- Witness plan for C2: two media segments numbered 1 and 2. -/
def c2plan : MpdPlan := ⟨"init", "m-$Number$", 1, [4, 4]⟩

/-- Witness fetcher for C2: every URL of `c2plan` succeeds. -/
def c2fetch : String → Except FetchErr Bytes := fun u =>
  if u = "init" then .ok [0]
  else if u = "m-1" then .ok [1]
  else if u = "m-2" then .ok [2]
  else .error 9

/-- Witness JSON-parse oracle for C6: `"x"` parses to a two-URL payload,
`"z"` to an empty URL list, everything else fails to parse. -/
def c6parse : String → Option (List String) := fun m =>
  if m = "x" then some ["u1", "u2"]
  else if m = "z" then some []
  else none

/-- Witness inputs for C4: a two-track album whose first track's derived
destination file already exists. -/
def c4cfg : PipeConfig := ⟨"out"⟩

def c4t : TrackR := ⟨7, "Song", 1, 1⟩

def c4t2 : TrackR := ⟨8, "Other", 2, 1⟩

def c4album : AlbumR := ⟨1, "Alb", 2020, "Art", [c4t, c4t2]⟩

/-- Filesystem for the C4 witness: directories can be created, and only
the first track's destination file exists. -/
def c4fs : FsEnv :=
  ⟨fun _ => true, fun p => decide (p = trackPath c4cfg c4album c4t)⟩

/-- Witness attempt oracle for C7: two transient failures, then success. -/
def c7oracle : Nat → Except Nat Unit := fun i =>
  if i < 2 then .error i else .ok ()

/-- The progress events a track emits over its first `n` retry attempts:
each attempt re-runs `Transcoder::run` from scratch, so the whole trace
is the concatenation of the per-attempt emissions. -/
def trackAttemptEvents
    (params : Nat → TranscodeEnv × Nat × List (Except Unit Bytes))
    (n : Nat) : List ProgressState :=
  (List.range n).flatMap
    (fun i => (transcoderRun (params i).1 (params i).2.1 (params i).2.2).1)

/-- Witness album for C8/C5/C10 scenarios: one track with id 7. -/
def c8album : AlbumR := ⟨1, "Alb", 2020, "Art", [⟨7, "Song", 1, 1⟩]⟩

/-- Witness trace for C8: renders at times 0, 1000 and 2500, message
bursts in between. -/
def c8steps : List AggStep :=
  [.msg (.DiscoverAlbum 1 c8album),
   .msg (.Progress ⟨1, 7, .Downloading 5⟩),
   .fire 0,
   .msg (.Progress ⟨1, 7, .Downloading 900⟩),
   .msg (.Progress ⟨1, 7, .Transcoding⟩),
   .fire 1000,
   .msg (.Progress ⟨1, 7, .Finished⟩),
   .fire 2500]

/-- Witness aggregator album for C10: one track with id 7. -/
def c10album : AlbumProgress := ⟨0, [(7, ⟨(1, 1), none, 0⟩)], "Alb", "Art", 2020⟩

def c10s : AggState := ⟨[(1, c10album)], 1, 0, false⟩

/-- A progress update whose album id 2 is untracked. -/
def c10ua : ProgressUpdate := ⟨2, 7, .Transcoding⟩

/-- A progress update for tracked album 1 but unknown track id 9. -/
def c10ub : ProgressUpdate := ⟨1, 9, .Downloading 5⟩

/-- C5 counterexample, first attempt: `ffmpeg` exits with status 1 after
the stream is consumed (failure after the `Transcoding` event). -/
def c5env1 : TranscodeEnv := ⟨true, fun _ => true, true, true, .ok 1, .ok 0⟩

/-- C5 counterexample, retry attempt: everything succeeds. -/
def c5env2 : TranscodeEnv := ⟨true, fun _ => true, true, true, .ok 0, .ok 0⟩

/-- One three-byte chunk. -/
def c5chunks : List (Except Unit Bytes) := [.ok [9, 9, 9]]

/-- The aggregator's message sequence for the C5 scenario: discover the
album, then forward the events of the failed attempt and of the retry. -/
def c5msgs : List ProgressTaskMessage :=
  .DiscoverAlbum 1 c8album ::
    ((transcoderRun c5env1 1 c5chunks).1 ++
        (transcoderRun c5env2 1 c5chunks).1).map
      (fun st => .Progress ⟨1, 7, st⟩)

/-- Track 7's stored aggregator state along the C5 scenario. -/
def c5trace : List (Option (Option ProgressState)) :=
  trackStateTrace (initAgg 0) 1 7 c5msgs

/-! # Theorems -/

/-! ## Shared lemmas about the MPD model -/

theorem downloadMpdPlan_inv (urlOk : String → Bool) (doc : MpdDoc)
    (seg : SegmentTemplateNode) (plan : MpdPlan)
    (hdoc : doc.segmentTemplate = some seg)
    (hplan : downloadMpdPlan urlOk doc = .ok plan) :
    plan.startNumber = startNumberOf seg ∧
    ((∃ tl, seg.timeline = some tl ∧ expandTimeline tl = .ok plan.segmentCounts) ∨
      (seg.timeline = none ∧ plan.segmentCounts = [0])) := by
  unfold downloadMpdPlan at hplan
  rw [hdoc] at hplan
  simp only at hplan
  split at hplan
  · exact absurd hplan (by simp)
  · split at hplan
    · exact absurd hplan (by simp)
    · split at hplan
      · exact absurd hplan (by simp)
      · rename_i cnts heq
        split at hplan
        · cases hplan
          constructor
          · rfl
          · split at heq
            · rename_i tl htl
              exact Or.inl ⟨tl, htl, heq⟩
            · rename_i htl
              cases heq
              exact Or.inr ⟨htl, rfl⟩
        · exact absurd hplan (by simp)

theorem parseI64chars_bounds (cs : List Char) (v : Int)
    (h : parseI64chars cs = some v) : -(2 ^ 63) ≤ v ∧ v < 2 ^ 63 := by
  unfold parseI64chars at h
  split at h
  · split at h
    · split at h
      · cases h; rename_i w _ hw; constructor <;> omega
      · exact absurd h (by simp)
    · exact absurd h (by simp)
  · split at h
    · split at h
      · cases h; rename_i w _ hw; constructor <;> omega
      · exact absurd h (by simp)
    · exact absurd h (by simp)
  · split at h
    · split at h
      · cases h; rename_i w _ hw; constructor <;> omega
      · exact absurd h (by simp)
    · exact absurd h (by simp)

theorem repeatOf_bounds (s : SNode) :
    -(2 ^ 63) ≤ repeatOf s ∧ repeatOf s < 2 ^ 63 := by
  unfold repeatOf
  cases hr : s.r with
  | none => decide
  | some str =>
    simp only [Option.some_bind]
    cases hp : parseI64? str with
    | none => decide
    | some v => simpa using parseI64chars_bounds str.data v hp

theorem usizeOfI64_of_nonneg (r : Int) (h0 : 0 ≤ r) (h1 : r < 2 ^ 64) :
    usizeOfI64 r = r.toNat := by
  unfold usizeOfI64 USIZE
  rw [Int.emod_eq_of_lt h0 (by exact_mod_cast h1)]

theorem expandTimeline_ok (tl : List SNode)
    (h : ∀ s ∈ tl, (s.d.bind parseU64?).isSome = true) :
    expandTimeline tl = .ok (tl.flatMap (fun s =>
      List.replicate (usizeOfI64 (repeatOf s) + 1)
        ((s.d.bind parseU64?).getD 0))) := by
  induction tl with
  | nil => rfl
  | cons s rest ih =>
    have hs := h s (List.mem_cons_self s rest)
    obtain ⟨d, hd⟩ := Option.isSome_iff_exists.mp hs
    have hrest := ih (fun x hx => h x (List.mem_cons_of_mem s hx))
    unfold expandTimeline durationOf
    rw [hd, hrest]
    simp [hd]

/-! ## Claim C1 -/

/-- C1: refuted by the code (code bug).  For the manifest `c1doc`, whose
single timeline entry carries `r="-1"`, `download_mpd` does not fail with
`NegativeRepeatUnsupported` (that variant is never constructed anywhere
in the crate): `r as usize` wraps `-1` to `2^64 - 1`, so the plan is
built successfully with `2^64` segment entries. -/
theorem c1_negative_repeat_not_rejected :
    downloadMpdPlan (fun _ => true) c1doc = .ok c1plan ∧
    c1plan.segmentCounts = List.replicate (2 ^ 64) 10 ∧
    (∀ e : ManifestError, downloadMpdPlan (fun _ => true) c1doc ≠ .error e) := by
  refine ⟨rfl, ?_, ?_⟩
  · show List.replicate (usizeOfI64 (repeatOf ⟨some "10", some "-1"⟩) + 1) 10 ++ [] = _
    rw [List.append_nil,
      show usizeOfI64 (repeatOf ⟨some "10", some "-1"⟩) + 1 = 2 ^ 64 from by decide]
  · intro e h
    rw [show downloadMpdPlan (fun _ => true) c1doc = .ok c1plan from rfl] at h
    exact Except.noConfusion h

/-! ## Claim C3 -/

/-- C3: counterexample to the claim as stated.  With
`startNumber = 2^64 - 1` and two segments, the numbers substituted into
the media template are `[2^64 - 1, 0]` (u64 wrap-around of
`start_number + idx as u64`), not `[startNumber, startNumber + 1]`. -/
theorem c3_counterexample_wraparound :
    downloadMpdPlan (fun _ => true) c3doc =
      .ok ⟨"i", "m-$Number$", 2 ^ 64 - 1, [1, 1]⟩ ∧
    segmentNumbers ⟨"i", "m-$Number$", 2 ^ 64 - 1, [1, 1]⟩ = [2 ^ 64 - 1, 0] ∧
    segmentNumbers ⟨"i", "m-$Number$", 2 ^ 64 - 1, [1, 1]⟩ ≠ [2 ^ 64 - 1, 2 ^ 64] := by
  refine ⟨rfl, by decide, by decide⟩

/-- C3 (amended): for a plan produced by `download_mpd`, a timeline whose
entries all have parseable durations and non-negative repeat counts
expands to exactly `Σ (ri + 1)` media segments (entry `i` contributing
`ri + 1` copies of its duration, in order); a manifest without a timeline
yields exactly one placeholder segment of duration 0; and the numbers
substituted into the media template are `startNumber + i` reduced modulo
`2^64`, in ascending dispatch order. -/
theorem c3_segment_expansion (urlOk : String → Bool) (doc : MpdDoc)
    (seg : SegmentTemplateNode) (plan : MpdPlan)
    (hdoc : doc.segmentTemplate = some seg)
    (hplan : downloadMpdPlan urlOk doc = .ok plan) :
    (∀ tl, seg.timeline = some tl →
      (∀ s ∈ tl, (s.d.bind parseU64?).isSome = true) →
      (∀ s ∈ tl, 0 ≤ repeatOf s) →
      plan.segmentCounts = tl.flatMap (fun s =>
        List.replicate ((repeatOf s).toNat + 1) ((s.d.bind parseU64?).getD 0)) ∧
      plan.segmentCounts.length =
        (tl.map (fun s => (repeatOf s).toNat + 1)).sum) ∧
    (seg.timeline = none → plan.segmentCounts = [0]) ∧
    segmentNumbers plan = (List.range plan.segmentCounts.length).map
      (fun i => (startNumberOf seg + i) % USIZE) := by
  obtain ⟨hsn, hcases⟩ := downloadMpdPlan_inv urlOk doc seg plan hdoc hplan
  refine ⟨?_, ?_, ?_⟩
  · intro tl htl hparse hnn
    have hflat : plan.segmentCounts = tl.flatMap (fun s =>
        List.replicate ((repeatOf s).toNat + 1) ((s.d.bind parseU64?).getD 0)) := by
      rcases hcases with ⟨tl', htl', hexp⟩ | ⟨htl', _⟩
      · rw [htl] at htl'
        cases htl'
        rw [expandTimeline_ok tl hparse] at hexp
        have h1 : tl.flatMap (fun s =>
            List.replicate (usizeOfI64 (repeatOf s) + 1)
              ((s.d.bind parseU64?).getD 0)) = plan.segmentCounts :=
          Except.ok.inj hexp
        rw [← h1]
        refine List.flatMap_congr ?_
        intro s hs
        rw [usizeOfI64_of_nonneg (repeatOf s) (hnn s hs)
          (lt_trans (repeatOf_bounds s).2 (by norm_num))]
      · rw [htl] at htl'
        exact absurd htl' (by simp)
    refine ⟨hflat, ?_⟩
    rw [hflat, List.length_flatMap]
    congr 1
    refine List.map_eq_map_iff.mpr ?_
    intro s _
    simp
  · intro htl
    rcases hcases with ⟨tl', htl', _⟩ | ⟨_, h0⟩
    · rw [htl] at htl'
      exact absurd htl' (by simp)
    · exact h0
  · unfold segmentNumbers
    rw [hsn]

/-- C3 witness: the amended theorem applied to the concrete manifest
`c3wdoc` (timeline entry `d="2"`, `r="1"`, `startNumber="5"`), whose
hypotheses hold there. -/
theorem c3_segment_expansion_witness :
    c3wdoc.segmentTemplate = some c3wseg ∧
    downloadMpdPlan (fun _ => true) c3wdoc = .ok c3wplan ∧
    ((∀ tl, c3wseg.timeline = some tl →
      (∀ s ∈ tl, (s.d.bind parseU64?).isSome = true) →
      (∀ s ∈ tl, 0 ≤ repeatOf s) →
      c3wplan.segmentCounts = tl.flatMap (fun s =>
        List.replicate ((repeatOf s).toNat + 1) ((s.d.bind parseU64?).getD 0)) ∧
      c3wplan.segmentCounts.length =
        (tl.map (fun s => (repeatOf s).toNat + 1)).sum) ∧
    (c3wseg.timeline = none → c3wplan.segmentCounts = [0]) ∧
    segmentNumbers c3wplan = (List.range c3wplan.segmentCounts.length).map
      (fun i => (startNumberOf c3wseg + i) % USIZE)) :=
  ⟨rfl, rfl, c3_segment_expansion (fun _ => true) c3wdoc c3wseg c3wplan rfl rfl⟩

/-! ## Claim C2 -/

theorem runOrdered_snd (clock : Nat) (futs : List SegFuture) :
    (runOrdered clock futs).map Prod.snd = futs.map SegFuture.result := by
  induction futs generalizing clock with
  | nil => rfl
  | cons f rest ih => simp [runOrdered, ih]

theorem segFutures_results (plan : MpdPlan)
    (fetch : String → Except FetchErr Bytes) (times : Nat → Nat) :
    (segFutures plan fetch times).map SegFuture.result =
      (segmentUrls plan).map fetch := by
  unfold segFutures
  rw [List.map_map]
  have hcomp : (SegFuture.result ∘
      fun p : Nat × String => SegFuture.mk (times p.1) (fetch p.2)) =
      (fun p : Nat × String => fetch p.2) := rfl
  rw [hcomp]
  calc (segmentUrls plan).enum.map (fun p : Nat × String => fetch p.2)
      = ((segmentUrls plan).enum.map Prod.snd).map fetch := by
        rw [List.map_map]; rfl
    _ = (segmentUrls plan).map fetch := by rw [List.enum_map_snd]

theorem emitLoop_all_ok (l : List (Except FetchErr Bytes))
    (h : ∀ x ∈ l, x.isOk = true) : emitLoop l = l := by
  induction l with
  | nil => rfl
  | cons x rest ih =>
    cases x with
    | ok b =>
      simp [emitLoop, ih (fun y hy => h y (List.mem_cons_of_mem _ hy))]
    | error e =>
      exact absurd (h _ (List.mem_cons_self _ _))
        (by simp [Except.isOk, Except.toBool])

theorem emitLoop_ok_err (bs : List Bytes) (e : FetchErr)
    (rest : List (Except FetchErr Bytes)) :
    emitLoop (bs.map Except.ok ++ .error e :: rest) =
      bs.map Except.ok ++ [.error e] := by
  induction bs with
  | nil => rfl
  | cons b tail ih => simp [emitLoop, ih]

/-- C2: confirmed.  When the initialization fetch succeeds, the stream of
`download_mpd` (i) does not depend on the completion times of the
dispatched segment fetches (the `FuturesOrdered` queue is drained in
dispatch order), (ii) yields the initialization bytes first, (iii) when
every segment fetch succeeds, yields exactly the segment results in
ascending dispatch (sequence-number) order after the initialization
bytes, and (iv) when a segment fetch fails, yields the results before the
first failure in order, then that error, and nothing further. -/
theorem c2_ordered_emission (plan : MpdPlan)
    (fetch : String → Except FetchErr Bytes) (times times2 : Nat → Nat)
    (init : Bytes) (hinit : fetch plan.initUrl = .ok init) :
    mpdStream plan fetch times = mpdStream plan fetch times2 ∧
    (mpdStream plan fetch times).head? = some (.ok init) ∧
    ((∀ u ∈ segmentUrls plan, (fetch u).isOk = true) →
      mpdStream plan fetch times = .ok init :: (segmentUrls plan).map fetch) ∧
    (∀ (pre : List Bytes) (e : FetchErr) (rest : List (Except FetchErr Bytes)),
      (segmentUrls plan).map fetch = pre.map Except.ok ++ .error e :: rest →
      mpdStream plan fetch times =
        .ok init :: (pre.map Except.ok ++ [.error e])) := by
  have hbase : ∀ ts : Nat → Nat, mpdStream plan fetch ts =
      .ok init :: emitLoop ((segmentUrls plan).map fetch) := by
    intro ts
    unfold mpdStream
    rw [hinit, runOrdered_snd, segFutures_results]
  refine ⟨by rw [hbase, hbase], by rw [hbase]; rfl, ?_, ?_⟩
  · intro hok
    rw [hbase, emitLoop_all_ok _ (by
      intro x hx
      obtain ⟨u, hu, hxu⟩ := List.mem_map.mp hx
      rw [← hxu]
      exact hok u hu)]
  · intro pre e rest hsplit
    rw [hbase, hsplit, emitLoop_ok_err]

/-- C2 witness: the ordering theorem applied to a concrete two-segment
plan whose fetches all succeed, with one schedule that completes later
segments first and one that completes them in order. -/
theorem c2_ordered_emission_witness :
    c2fetch c2plan.initUrl = .ok [0] ∧
    (mpdStream c2plan c2fetch (fun i => 10 - i) =
      mpdStream c2plan c2fetch (fun i => i) ∧
    (mpdStream c2plan c2fetch (fun i => 10 - i)).head? = some (.ok [0]) ∧
    ((∀ u ∈ segmentUrls c2plan, (c2fetch u).isOk = true) →
      mpdStream c2plan c2fetch (fun i => 10 - i) =
        .ok [0] :: (segmentUrls c2plan).map c2fetch) ∧
    (∀ (pre : List Bytes) (e : FetchErr) (rest : List (Except FetchErr Bytes)),
      (segmentUrls c2plan).map c2fetch = pre.map Except.ok ++ .error e :: rest →
      mpdStream c2plan c2fetch (fun i => 10 - i) =
        .ok [0] :: (pre.map Except.ok ++ [.error e]))) :=
  ⟨rfl, c2_ordered_emission c2plan c2fetch (fun i => 10 - i) (fun i => i)
    [0] rfl⟩

/-! ## Claim C6 -/

/-- C6: confirmed.  `download_track` classifies the decoded manifest in
this order: a text containing `<MPD` is handed to the segmented (MPD)
path; otherwise, when the payload parses to a URL list with a first
element, that first URL is selected for a direct download; otherwise
(parse failure or an empty URL list) the call fails with
`ManifestDecode`. -/
theorem c6_manifest_classification
    (parseUrlHolder : String → Option (List String)) (manifest : String) :
    (containsSub manifest "<MPD" = true →
      downloadTrackRoute parseUrlHolder manifest = .ok (.mpd manifest)) ∧
    (containsSub manifest "<MPD" = false →
      ∀ url rest, parseUrlHolder manifest = some (url :: rest) →
      downloadTrackRoute parseUrlHolder manifest = .ok (.direct url)) ∧
    (containsSub manifest "<MPD" = false → parseUrlHolder manifest = none →
      downloadTrackRoute parseUrlHolder manifest = .error .ManifestDecode) ∧
    (containsSub manifest "<MPD" = false → parseUrlHolder manifest = some [] →
      downloadTrackRoute parseUrlHolder manifest = .error .ManifestDecode) := by
  refine ⟨?_, ?_, ?_, ?_⟩
  · intro h
    unfold downloadTrackRoute
    rw [if_pos h]
  · intro h url rest hp
    unfold downloadTrackRoute
    rw [if_neg (by simp [h]), hp]
  · intro h hp
    unfold downloadTrackRoute
    rw [if_neg (by simp [h]), hp]
  · intro h hp
    unfold downloadTrackRoute
    rw [if_neg (by simp [h]), hp]

/-- C6 witness: the classification theorem applied to four concrete
manifests, one per branch (marker present, first URL selected, parse
failure, empty URL list). -/
theorem c6_manifest_classification_witness :
    containsSub "<MPD x" "<MPD" = true ∧
    downloadTrackRoute c6parse "<MPD x" = .ok (.mpd "<MPD x") ∧
    containsSub "x" "<MPD" = false ∧ c6parse "x" = some ["u1", "u2"] ∧
    downloadTrackRoute c6parse "x" = .ok (.direct "u1") ∧
    c6parse "y" = none ∧
    downloadTrackRoute c6parse "y" = .error .ManifestDecode ∧
    c6parse "z" = some [] ∧
    downloadTrackRoute c6parse "z" = .error .ManifestDecode :=
  ⟨by decide, (c6_manifest_classification c6parse "<MPD x").1 (by decide),
   by decide, by decide,
   (c6_manifest_classification c6parse "x").2.1 (by decide) "u1" ["u2"]
     (by decide),
   by decide,
   (c6_manifest_classification c6parse "y").2.2.1 (by decide) (by decide),
   by decide,
   (c6_manifest_classification c6parse "z").2.2.2 (by decide) (by decide)⟩

/-! ## Claim C4 -/

/-- C4: confirmed.  A track whose derived destination file already exists
is skipped by `Pipeline::begin`: it appears in no spawned task (so no
attempt, hence no progress event and no network request originates from
it), and no spawned task's destination path is an existing file (so the
existing file is never written). -/
theorem c4_existing_file_skipped (cfg : PipeConfig) (fs : FsEnv)
    (album : AlbumR) (t : TrackR)
    (hex : fs.fileExists (trackPath cfg album t) = true) :
    (∀ l, spawnedTracks cfg fs album = .ok l →
      t ∉ l.map Prod.fst ∧ trackPath cfg album t ∉ l.map Prod.snd) ∧
    (∀ trackEvents : TrackR → List ProgressState,
      ∀ ev ∈ beginEvents trackEvents cfg fs album, ev.1 ≠ t) := by
  have hmain : ∀ l, spawnedTracks cfg fs album = .ok l →
      t ∉ l.map Prod.fst ∧ trackPath cfg album t ∉ l.map Prod.snd := by
    intro l hl
    simp only [spawnedTracks] at hl
    split at hl
    · exact absurd hl (by simp)
    · rename_i hcd
      cases hl
      constructor
      · intro hmem
        obtain ⟨pair, hpair, hfst⟩ := List.mem_map.mp hmem
        obtain ⟨a, _, hsome⟩ := List.mem_filterMap.mp hpair
        split at hsome
        · exact absurd hsome (by simp)
        · rename_i hnex
          cases hsome
          have hat : a = t := hfst
          rw [hat] at hnex
          exact hnex hex
      · intro hmem
        obtain ⟨pair, hpair, hsnd⟩ := List.mem_map.mp hmem
        obtain ⟨a, _, hsome⟩ := List.mem_filterMap.mp hpair
        split at hsome
        · exact absurd hsome (by simp)
        · rename_i hnex
          cases hsome
          have hpt : trackPath cfg album a = trackPath cfg album t := hsnd
          rw [hpt] at hnex
          exact hnex hex
  refine ⟨hmain, ?_⟩
  intro te ev hev
  simp only [beginEvents] at hev
  split at hev
  · exact absurd hev (by simp)
  · rename_i l hok
    obtain ⟨x, hx, hevx⟩ := List.mem_flatMap.mp hev
    obtain ⟨st, _, hst⟩ := List.mem_map.mp hevx
    intro hcontra
    have hfst : x.1 = t := by rw [← hst] at hcontra; exact hcontra
    exact (hmain l hok).1 (List.mem_map.mpr ⟨x, hx, hfst⟩)

/-- C4 witness: in the concrete album `c4album`, track `c4t`'s file
exists, the pipeline spawns only the other track, and the skip theorem
applies. -/
theorem c4_existing_file_skipped_witness :
    c4fs.fileExists (trackPath c4cfg c4album c4t) = true ∧
    spawnedTracks c4cfg c4fs c4album =
      .ok [(c4t2, trackPath c4cfg c4album c4t2)] ∧
    ((∀ l, spawnedTracks c4cfg c4fs c4album = .ok l →
      c4t ∉ l.map Prod.fst ∧
        trackPath c4cfg c4album c4t ∉ l.map Prod.snd) ∧
    (∀ trackEvents : TrackR → List ProgressState,
      ∀ ev ∈ beginEvents trackEvents c4cfg c4fs c4album, ev.1 ≠ c4t)) :=
  ⟨by decide, rfl,
    c4_existing_file_skipped c4cfg c4fs c4album c4t (by decide)⟩

/-! ## Claim C7 -/

theorem retryGo_ok_after {ε α : Type} (action : Nat → Except ε α) (a : α) :
    ∀ (k j : Nat) (delays : List Nat),
      (∀ i, i < k → ∃ e, action (j + i) = .error e) →
      action (j + k) = .ok a → k ≤ delays.length →
      retryGo action j delays = (j + k + 1, .ok a) := by
  intro k
  induction k with
  | zero =>
    intro j delays _ hok _
    cases delays with
    | nil =>
      simp only [retryGo]
      rw [show j + 0 = j from rfl] at hok
      rw [hok]
    | cons d ds =>
      simp only [retryGo]
      rw [show j + 0 = j from rfl] at hok
      rw [hok]
  | succ k ih =>
    intro j delays hfail hok hlen
    cases delays with
    | nil => exact absurd hlen (by simp)
    | cons d ds =>
      obtain ⟨e, he⟩ := hfail 0 (Nat.succ_pos k)
      rw [show j + 0 = j from rfl] at he
      simp only [retryGo]
      rw [he]
      have h1 : ∀ i, i < k → ∃ e, action (j + 1 + i) = .error e := by
        intro i hi
        have h := hfail (i + 1) (Nat.succ_lt_succ hi)
        rw [show j + (i + 1) = j + 1 + i from by omega] at h
        exact h
      have h2 : action (j + 1 + k) = .ok a := by
        rw [show j + 1 + k = j + (k + 1) from by omega]
        exact hok
      have h3 : k ≤ ds.length := by simpa using Nat.le_of_succ_le_succ hlen
      rw [show j + (k + 1) + 1 = j + 1 + k + 1 from by omega]
      exact ih (j + 1) ds h1 h2 h3

theorem retryGo_all_fail {ε α : Type} (action : Nat → Except ε α)
    (es : Nat → ε) (h : ∀ i, action i = .error (es i)) :
    ∀ (delays : List Nat) (j : Nat),
      retryGo action j delays =
        (j + delays.length + 1, .error (es (j + delays.length))) := by
  intro delays
  induction delays with
  | nil => intro j; simp [retryGo, h j]
  | cons d ds ih =>
    intro j
    simp only [retryGo, h j, List.length_cons]
    rw [ih (j + 1), show j + 1 + ds.length = j + (ds.length + 1) from by omega]

theorem retryGo_attempts_le {ε α : Type} (action : Nat → Except ε α) :
    ∀ (delays : List Nat) (j : Nat),
      (retryGo action j delays).1 ≤ j + delays.length + 1 := by
  intro delays
  induction delays with
  | nil => intro j; simp [retryGo]
  | cons d ds ih =>
    intro j
    simp only [retryGo, List.length_cons]
    cases action j with
    | ok a => simp
    | error e =>
      have h := ih (j + 1)
      show (retryGo action (j + 1) ds).1 ≤ j + (ds.length + 1) + 1
      omega

/-- C7: confirmed.  The per-track attempt runs under
`ExponentialBackoff::from_millis(1000).map(jitter).take(5)`: the strategy
holds exactly 5 (jittered exponential) delays, so at most 6 attempts are
made; an oracle failing exactly `k ≤ 5` times and then succeeding
resolves to success after exactly `k + 1` attempts; an oracle that always
fails exhausts the budget after 6 attempts and resolves the handle to the
last failure; and the handles `begin` returns are pairwise independent:
changing only one track's attempt oracle leaves every other track's
handle result unchanged. -/
theorem c7_retry_backoff {ε : Type} (jitterF : Nat → Nat → Nat)
    (oracle : Nat → Except ε Unit) (k : Nat) (es : Nat → ε)
    (hk : k ≤ 5)
    (hfail : ∀ i, i < k → oracle i = .error (es i))
    (hsucc : oracle k = .ok ()) :
    (retryStrategy jitterF).length = 5 ∧
    trackHandleResult jitterF oracle = (k + 1, .ok ()) ∧
    (∀ oracle3 : Nat → Except ε Unit,
      (trackHandleResult jitterF oracle3).1 ≤ 6) ∧
    (∀ (oracle2 : Nat → Except ε Unit) (es2 : Nat → ε),
      (∀ i, oracle2 i = .error (es2 i)) →
      trackHandleResult jitterF oracle2 = (6, .error (es2 5))) ∧
    (∀ (oracles oracles2 : TrackId → Nat → Except ε Unit)
        (tracks : List TrackR) (tid : TrackId),
      (∀ t ∈ tracks, t.id ≠ tid → oracles t.id = oracles2 t.id) →
      List.Forall₂ (fun p q => p.1 = q.1 ∧ (p.1 ≠ tid → p = q))
        (beginHandles jitterF oracles tracks)
        (beginHandles jitterF oracles2 tracks)) := by
  have hlen : (retryStrategy jitterF).length = 5 := by
    simp [retryStrategy, expBackoffDelays]
  refine ⟨hlen, ?_, ?_, ?_, ?_⟩
  · have h := retryGo_ok_after oracle () k 0 (retryStrategy jitterF)
      (fun i hi => ⟨es i, by rw [Nat.zero_add]; exact hfail i hi⟩)
      (by rw [Nat.zero_add]; exact hsucc) (by omega)
    rw [Nat.zero_add] at h
    exact h
  · intro oracle3
    have h := retryGo_attempts_le oracle3 (retryStrategy jitterF) 0
    rw [hlen] at h
    simpa using h
  · intro oracle2 es2 hall
    have h := retryGo_all_fail oracle2 es2 hall (retryStrategy jitterF) 0
    rw [hlen, Nat.zero_add] at h
    exact h
  · intro oracles oracles2 tracks tid hagree
    induction tracks with
    | nil => exact List.Forall₂.nil
    | cons t rest ih =>
      simp only [beginHandles, List.map_cons]
      refine List.Forall₂.cons ⟨rfl, ?_⟩ ?_
      · intro hne
        have hid : t.id ≠ tid := hne
        rw [hagree t (List.mem_cons_self t rest) hid]
      · have h := ih (fun x hx hne => hagree x (List.mem_cons_of_mem t hx) hne)
        simpa [beginHandles] using h

/-- C7 witness: the retry theorem applied to a concrete oracle that fails
twice (transiently) and then succeeds: the track resolves successfully
after exactly 3 attempts. -/
theorem c7_retry_backoff_witness :
    (2 : Nat) ≤ 5 ∧ (∀ i, i < 2 → c7oracle i = .error i) ∧
    c7oracle 2 = .ok () ∧
    ((retryStrategy (fun _ d => d)).length = 5 ∧
    trackHandleResult (fun _ d => d) c7oracle = (3, .ok ()) ∧
    (∀ oracle3 : Nat → Except Nat Unit,
      (trackHandleResult (fun _ d => d) oracle3).1 ≤ 6) ∧
    (∀ (oracle2 : Nat → Except Nat Unit) (es2 : Nat → Nat),
      (∀ i, oracle2 i = .error (es2 i)) →
      trackHandleResult (fun _ d => d) oracle2 = (6, .error (es2 5))) ∧
    (∀ (oracles oracles2 : TrackId → Nat → Except Nat Unit)
        (tracks : List TrackR) (tid : TrackId),
      (∀ t ∈ tracks, t.id ≠ tid → oracles t.id = oracles2 t.id) →
      List.Forall₂ (fun p q => p.1 = q.1 ∧ (p.1 ≠ tid → p = q))
        (beginHandles (fun _ d => d) oracles tracks)
        (beginHandles (fun _ d => d) oracles2 tracks))) :=
  ⟨by omega, fun i hi => by interval_cases i <;> rfl, rfl,
    c7_retry_backoff (fun _ d => d) c7oracle 2 (fun i => i) (by omega)
      (fun i hi => by interval_cases i <;> rfl) rfl⟩

/-! ## Claim C9 -/

/-- C9: an unparseable `startNumber` attribute falls back to 1, an
unparseable `r` attribute falls back to 0 (neither is an error, so a
timeline whose durations all parse always expands successfully), while a
missing or unparseable `d` attribute is reported as the structural
failure `SMissingD`; a produced plan reflects the defaulted start
number. -/
theorem c9_attribute_parse_policy (sStr rStr dStr : String)
    (hs : parseU64? sStr = none) (hr : parseI64? rStr = none)
    (hd : parseU64? dStr = none) :
    (∀ seg : SegmentTemplateNode, seg.startNumber = some sStr →
      startNumberOf seg = 1) ∧
    (∀ s : SNode, s.r = some rStr → repeatOf s = 0) ∧
    (∀ s : SNode, s.d = some dStr → durationOf s = .error .SMissingD) ∧
    (∀ s : SNode, s.d = none → durationOf s = .error .SMissingD) ∧
    (∀ tl : List SNode, (∀ s ∈ tl, (s.d.bind parseU64?).isSome = true) →
      (expandTimeline tl).isOk = true) ∧
    (∀ (urlOk : String → Bool) (doc : MpdDoc) (seg : SegmentTemplateNode)
        (plan : MpdPlan), doc.segmentTemplate = some seg →
      seg.startNumber = some sStr → downloadMpdPlan urlOk doc = .ok plan →
      plan.startNumber = 1) := by
  have h1 : ∀ seg : SegmentTemplateNode, seg.startNumber = some sStr →
      startNumberOf seg = 1 := by
    intro seg hseg
    unfold startNumberOf
    rw [hseg]
    simp [hs]
  refine ⟨h1, ?_, ?_, ?_, ?_, ?_⟩
  · intro s hsr
    unfold repeatOf
    rw [hsr]
    simp [hr]
  · intro s hsd
    unfold durationOf
    rw [hsd]
    simp [hd]
  · intro s hsd
    unfold durationOf
    rw [hsd]
    simp
  · intro tl hparse
    rw [expandTimeline_ok tl hparse]
    rfl
  · intro urlOk doc seg plan hdoc hseg hplan
    rw [(downloadMpdPlan_inv urlOk doc seg plan hdoc hplan).1]
    exact h1 seg hseg

/-- C9 witness: the attribute strings `"1x"`, `"z"` and `""` are
unparseable, and the policy theorem applies to them. -/
theorem c9_attribute_parse_policy_witness :
    parseU64? "1x" = none ∧ parseI64? "z" = none ∧ parseU64? "" = none ∧
    ((∀ seg : SegmentTemplateNode, seg.startNumber = some "1x" →
      startNumberOf seg = 1) ∧
    (∀ s : SNode, s.r = some "z" → repeatOf s = 0) ∧
    (∀ s : SNode, s.d = some "" → durationOf s = .error .SMissingD) ∧
    (∀ s : SNode, s.d = none → durationOf s = .error .SMissingD) ∧
    (∀ tl : List SNode, (∀ s ∈ tl, (s.d.bind parseU64?).isSome = true) →
      (expandTimeline tl).isOk = true) ∧
    (∀ (urlOk : String → Bool) (doc : MpdDoc) (seg : SegmentTemplateNode)
        (plan : MpdPlan), doc.segmentTemplate = some seg →
      seg.startNumber = some "1x" → downloadMpdPlan urlOk doc = .ok plan →
      plan.startNumber = 1)) :=
  ⟨by decide, by decide, by decide,
    c9_attribute_parse_policy "1x" "z" "" (by decide) (by decide) (by decide)⟩

/-! ## Claim C5 -/

theorem writeLoop_events (env : TranscodeEnv)
    (chunks : List (Except Unit Bytes)) :
    ∀ d i : Nat,
    List.Chain' (fun a b => progLeB a b = true) (writeLoop env d i chunks).1 ∧
    (∀ x ∈ (writeLoop env d i chunks).1, ∃ m, x = .Downloading m ∧ d ≤ m) := by
  induction chunks with
  | nil => intro d i; exact ⟨List.chain'_nil, by simp [writeLoop]⟩
  | cons chunk rest ih =>
    intro d i
    cases chunk with
    | error e => exact ⟨List.chain'_nil, by simp [writeLoop]⟩
    | ok b =>
      by_cases hw : env.writeOk i = true
      · have hih := ih (d + b.length) (i + 1)
        have he : (writeLoop env d i (.ok b :: rest)).1 =
            .Downloading (d + b.length) ::
              (writeLoop env (d + b.length) (i + 1) rest).1 := by
          simp [writeLoop, hw]
        rw [he]
        constructor
        · rw [List.chain'_cons']
          refine ⟨?_, hih.1⟩
          intro y hy
          obtain ⟨m, hym, hdm⟩ := hih.2 y (List.mem_of_mem_head? hy)
          rw [hym]
          simp [progLeB, hdm]
        · intro x hx
          rcases List.mem_cons.mp hx with hx3 | hx3
          · exact ⟨d + b.length, hx3, Nat.le_add_right d b.length⟩
          · obtain ⟨m, hym, hdm⟩ := hih.2 x hx3
            exact ⟨m, hym, le_trans (Nat.le_add_right d b.length) hdm⟩
      · constructor
        · simp [writeLoop, hw, List.chain'_nil]
        · simp [writeLoop, hw]

theorem chain_stage_lists (evs1 : List ProgressState)
    (hch : List.Chain' (fun a b => progLeB a b = true) evs1)
    (hall : ∀ x ∈ evs1, ∃ m, x = .Downloading m) :
    List.Chain' (fun a b => progLeB a b = true)
      ([ProgressState.Downloading 0] ++ evs1) ∧
    List.Chain' (fun a b => progLeB a b = true)
      ([ProgressState.Downloading 0] ++ evs1 ++ [ProgressState.Transcoding]) ∧
    List.Chain' (fun a b => progLeB a b = true)
      (([ProgressState.Downloading 0] ++ evs1 ++ [ProgressState.Transcoding]) ++
        [ProgressState.Finished]) := by
  have h1 : List.Chain' (fun a b => progLeB a b = true)
      ([ProgressState.Downloading 0] ++ evs1) := by
    show List.Chain' _ (ProgressState.Downloading 0 :: evs1)
    rw [List.chain'_cons']
    refine ⟨?_, hch⟩
    intro y hy
    obtain ⟨m, hym⟩ := hall y (List.mem_of_mem_head? hy)
    rw [hym]
    simp [progLeB]
  have hmem : ∀ x ∈ [ProgressState.Downloading 0] ++ evs1,
      ∃ m, x = .Downloading m := by
    intro x hx
    rcases List.mem_append.mp hx with hx2 | hx2
    · simp at hx2
      exact ⟨0, hx2⟩
    · exact hall x hx2
  have h2 : List.Chain' (fun a b => progLeB a b = true)
      ([ProgressState.Downloading 0] ++ evs1 ++
        [ProgressState.Transcoding]) := by
    rw [List.chain'_append]
    refine ⟨h1, List.chain'_singleton _, ?_⟩
    intro x hx y hy
    obtain ⟨m, hxm⟩ := hmem x (List.mem_of_mem_getLast? hx)
    simp at hy
    rw [hxm, ← hy]
    rfl
  refine ⟨h1, h2, ?_⟩
  rw [List.chain'_append]
  refine ⟨h2, List.chain'_singleton _, ?_⟩
  intro x hx y hy
  rw [List.getLast?_concat] at hx
  simp at hx hy
  rw [← hx, ← hy]
  rfl

theorem transcoderRun_shape (env : TranscodeEnv) (artists : Nat)
    (chunks : List (Except Unit Bytes)) :
    (transcoderRun env artists chunks).1 = [ProgressState.Downloading 0] ∨
    (transcoderRun env artists chunks).1 =
      [ProgressState.Downloading 0] ++ (writeLoop env 0 0 chunks).1 ∨
    (transcoderRun env artists chunks).1 =
      [ProgressState.Downloading 0] ++ (writeLoop env 0 0 chunks).1 ++
        [ProgressState.Transcoding] ∨
    (transcoderRun env artists chunks).1 =
      ([ProgressState.Downloading 0] ++ (writeLoop env 0 0 chunks).1 ++
        [ProgressState.Transcoding]) ++ [ProgressState.Finished] := by
  unfold transcoderRun
  split
  · exact Or.inl rfl
  · split
    · rename_i evs1 e heq
      rw [show (writeLoop env 0 0 chunks).1 = evs1 from by rw [heq]]
      exact Or.inr (Or.inl rfl)
    · rename_i evs1 u heq
      rw [show (writeLoop env 0 0 chunks).1 = evs1 from by rw [heq]]
      split
      · exact Or.inr (Or.inl rfl)
      · split
        · exact Or.inr (Or.inr (Or.inl rfl))
        · split
          · exact Or.inr (Or.inr (Or.inl rfl))
          · split
            · exact Or.inr (Or.inr (Or.inl rfl))
            · split
              · split
                · exact Or.inr (Or.inr (Or.inl rfl))
                · split
                  · exact Or.inr (Or.inr (Or.inl rfl))
                  · exact Or.inr (Or.inr (Or.inr rfl))
              · exact Or.inr (Or.inr (Or.inr rfl))

/-- C5: counterexample to the claim as stated.  In a concrete
fail-then-retry scenario (first attempt fails with a non-zero `ffmpeg`
exit after `Transcoding`, the retry succeeds), the aggregator-visible
state of the track never returns to the unset waiting state after its
first event: at the retry boundary it goes `Transcoding` →
`Downloading 0` directly (a stage regression, as the last conjunct
records), with no reset to Waiting — indeed `ProgressState` has no
`Waiting` constructor at all. -/
theorem c5_counterexample_no_waiting_reset :
    (transcoderRun c5env1 1 c5chunks).2 = .error (.NonZeroExit 1) ∧
    (transcoderRun c5env2 1 c5chunks).2 = .ok () ∧
    c5trace = [none, some none,
      some (some (.Downloading 0)), some (some (.Downloading 3)),
      some (some .Transcoding),
      some (some (.Downloading 0)), some (some (.Downloading 3)),
      some (some .Transcoding), some (some .Finished)] ∧
    (∀ x ∈ c5trace.drop 2, x ≠ some none) ∧
    progLeB .Transcoding (.Downloading 0) = false :=
  ⟨rfl, rfl, by decide, by decide, by decide⟩

/-- C5 (amended): within one transcode attempt the emitted sequence
starts at `Downloading 0` and is monotone through the stages
`Downloading` (with non-decreasing byte counts) → `Transcoding` →
`Finished`; `Waiting` exists only as the aggregator's unset initial
state, not as an emitted event, and a retry repeats the per-attempt
sequence (the whole trace is the concatenation of per-attempt emissions,
each restarting at `Downloading 0` rather than at a Waiting reset). -/
theorem c5_attempt_monotone (env : TranscodeEnv) (artists : Nat)
    (chunks : List (Except Unit Bytes)) :
    (transcoderRun env artists chunks).1.head? =
      some (ProgressState.Downloading 0) ∧
    List.Chain' (fun a b => progLeB a b = true)
      (transcoderRun env artists chunks).1 ∧
    (∀ (params : Nat → TranscodeEnv × Nat × List (Except Unit Bytes))
        (n : Nat),
      trackAttemptEvents params (n + 1) =
        trackAttemptEvents params n ++
          (transcoderRun (params n).1 (params n).2.1 (params n).2.2).1) := by
  obtain ⟨hch, hallD⟩ := writeLoop_events env chunks 0 0
  have hall : ∀ x ∈ (writeLoop env 0 0 chunks).1, ∃ m, x = .Downloading m :=
    fun x hx => ⟨(hallD x hx).choose, (hallD x hx).choose_spec.1⟩
  obtain ⟨A1, A2, A3⟩ := chain_stage_lists _ hch hall
  have hshape := transcoderRun_shape env artists chunks
  refine ⟨?_, ?_, ?_⟩
  · rcases hshape with h | h | h | h <;> rw [h] <;> rfl
  · rcases hshape with h | h | h | h <;> rw [h]
    · exact List.chain'_singleton _
    · exact A1
    · exact A2
    · exact A3
  · intro params n
    simp [trackAttemptEvents, List.range_succ]

/-- C5 witness: the monotone-attempt theorem at the concrete successful
attempt of the counterexample scenario. -/
theorem c5_attempt_monotone_witness :
    (transcoderRun c5env2 1 c5chunks).1.head? =
      some (ProgressState.Downloading 0) ∧
    List.Chain' (fun a b => progLeB a b = true)
      (transcoderRun c5env2 1 c5chunks).1 ∧
    (∀ (params : Nat → TranscodeEnv × Nat × List (Except Unit Bytes))
        (n : Nat),
      trackAttemptEvents params (n + 1) =
        trackAttemptEvents params n ++
          (transcoderRun (params n).1 (params n).2.1 (params n).2.2).1) :=
  c5_attempt_monotone c5env2 1 c5chunks

/-! ## Claim C8 -/

theorem handleMessage_lastEdit (s : AggState) (m : ProgressTaskMessage) :
    (handleMessage s m).lastEdit = s.lastEdit := by
  cases m with
  | DiscoverAlbum id album => rfl
  | Progress u =>
    simp only [handleMessage]
    split
    · rfl
    · split
      · rfl
      · rfl
  | Done id => rfl

theorem renderTimes_spaced (steps : List AggStep) :
    ∀ s : AggState, wfStepsB s steps = true →
    List.Chain' (fun a b => a + INTERVAL ≤ b) (renderTimes s steps) ∧
    (∀ t ∈ (renderTimes s steps).head?, s.lastEdit + INTERVAL ≤ t) := by
  induction steps with
  | nil => exact fun s _ => ⟨List.chain'_nil, by simp [renderTimes]⟩
  | cons st rest ih =>
    intro s h
    cases st with
    | msg m =>
      simp only [wfStepsB] at h
      have hrec := ih (handleMessage s m) h
      simp only [renderTimes]
      refine ⟨hrec.1, ?_⟩
      rw [← handleMessage_lastEdit s m]
      exact hrec.2
    | fire t =>
      simp only [wfStepsB, Bool.and_eq_true, decide_eq_true_eq] at h
      obtain ⟨⟨hpend, hle⟩, hrest⟩ := h
      have hrec := ih (applyStep s (.fire t)) hrest
      simp only [renderTimes]
      constructor
      · rw [List.chain'_cons']
        refine ⟨?_, hrec.1⟩
        intro y hy
        have hy2 := hrec.2 y hy
        simpa [applyStep] using hy2
      · intro t0 ht0
        simp at ht0
        subst ht0
        exact hle

theorem alistLookup_modify_self {κ β : Type} [DecidableEq κ] (f : β → β)
    (l : List (κ × β)) (k : κ) :
    alistLookup (alistModify f l k) k = (alistLookup l k).map f := by
  induction l with
  | nil => rfl
  | cons p rest ih =>
    obtain ⟨k', v⟩ := p
    by_cases hk : k' = k
    · simp [alistModify, alistLookup, hk]
    · simp [alistModify, alistLookup, hk, ih]

/-- C8: confirmed.  Along every admissible interleaving of the
`ProgressTask::run` select loop (messages at will; the render timer can
only fire while an edit is pending and no earlier than one interval after
the previous render), consecutive render emissions are at least
`INTERVAL` (1000 ms) apart — no matter how many messages arrive in
between; and a received `Progress` update for a tracked album and track
is applied to the per-album/per-track map at that very step (state set,
byte count updated for `Downloading`, pending-render flag raised). -/
theorem c8_debounced_renders (now0 : Int) (steps : List AggStep)
    (h : wfStepsB (initAgg now0) steps = true) :
    List.Chain' (fun a b => a + INTERVAL ≤ b)
      (renderTimes (initAgg now0) steps) ∧
    (∀ (s : AggState) (u : ProgressUpdate) (album : AlbumProgress)
        (tr : TrackProgress),
      alistLookup s.albums u.album_id = some album →
      alistLookup album.tracks u.track_id = some tr →
      ∃ album2,
        alistLookup (handleMessage s (.Progress u)).albums u.album_id =
          some album2 ∧
        alistLookup album2.tracks u.track_id = some
          ⟨tr.sort, some u.state,
            match u.state with
            | .Downloading b => b
            | _ => tr.last_known_bytes⟩ ∧
        (handleMessage s (.Progress u)).pendingEdit = true) := by
  refine ⟨(renderTimes_spaced steps (initAgg now0) h).1, ?_⟩
  intro s u album tr ha ht
  refine ⟨{ album with tracks := alistModify (fun _ =>
      ⟨tr.sort, some u.state,
        match u.state with
        | .Downloading b => b
        | _ => tr.last_known_bytes⟩) album.tracks u.track_id }, ?_, ?_, ?_⟩
  · simp only [handleMessage, ha, ht]
    rw [alistLookup_modify_self, ha]
    rfl
  · show alistLookup (alistModify _ album.tracks u.track_id) u.track_id = _
    rw [alistLookup_modify_self, ht]
    rfl
  · simp only [handleMessage, ha, ht]

/-- C8 witness: the debounce theorem on the concrete trace `c8steps`
(renders at 0, 1000 and 2500 with message bursts in between). -/
theorem c8_debounced_renders_witness :
    wfStepsB (initAgg 0) c8steps = true ∧
    (List.Chain' (fun a b => a + INTERVAL ≤ b)
      (renderTimes (initAgg 0) c8steps) ∧
    (∀ (s : AggState) (u : ProgressUpdate) (album : AlbumProgress)
        (tr : TrackProgress),
      alistLookup s.albums u.album_id = some album →
      alistLookup album.tracks u.track_id = some tr →
      ∃ album2,
        alistLookup (handleMessage s (.Progress u)).albums u.album_id =
          some album2 ∧
        alistLookup album2.tracks u.track_id = some
          ⟨tr.sort, some u.state,
            match u.state with
            | .Downloading b => b
            | _ => tr.last_known_bytes⟩ ∧
        (handleMessage s (.Progress u)).pendingEdit = true)) :=
  ⟨by decide, c8_debounced_renders 0 c8steps (by decide)⟩

/-! ## Claim C10 -/

/-- C10: confirmed.  A `Progress` update whose album id is untracked, or
whose track id is absent from the tracked album's track map, leaves the
aggregator state entirely unchanged (albums map, every track's state and
bytes, pending-render flag) — the loop just continues. -/
theorem c10_unknown_ids_ignored (s : AggState) (u : ProgressUpdate) :
    (alistLookup s.albums u.album_id = none →
      handleMessage s (.Progress u) = s) ∧
    (∀ album, alistLookup s.albums u.album_id = some album →
      alistLookup album.tracks u.track_id = none →
      handleMessage s (.Progress u) = s) := by
  constructor
  · intro h
    simp only [handleMessage, h]
  · intro album ha ht
    simp only [handleMessage, ha, ht]

/-- C10 witness: the no-op theorem at a concrete tracked state, once for
an unknown album id and once for an unknown track id. -/
theorem c10_unknown_ids_ignored_witness :
    alistLookup c10s.albums c10ua.album_id = none ∧
    handleMessage c10s (.Progress c10ua) = c10s ∧
    alistLookup c10s.albums c10ub.album_id = some c10album ∧
    alistLookup c10album.tracks c10ub.track_id = none ∧
    handleMessage c10s (.Progress c10ub) = c10s :=
  ⟨by decide, (c10_unknown_ids_ignored c10s c10ua).1 (by decide),
   by decide, by decide,
   (c10_unknown_ids_ignored c10s c10ub).2 c10album (by decide) (by decide)⟩

end PNNP
